import Mathlib

/-!
# Verification of the pokedex record-resolution and seed/import core

Shallow embedding of the repository's core logic:

* `PokemonService.findOne` (multi-strategy resolver), `create`, and the
  private `_errorHandler` from `pokemon.service.ts`;
* `SeedService.excuteSeed` and `excuteSeedWithAdapter` from
  `seed/seed.service.ts`.

JavaScript-level behaviour that the code relies on is modelled explicitly:
`Number(string)` coercion (the `!isNaN(+term)` guard), ASCII
`toLowerCase`/`toUpperCase`/`trim`, `String.prototype.split('/')`, and
Mongoose's duplicate-key (`code 11000`) unique-index semantics.
-/

namespace Pokedex

/-! ## Definitions: shallow embedding of the program -/

/-- ASCII uppercase of one character, the per-character action of JS
`String.prototype.toUpperCase` on ASCII input. -/
def cUp (c : Char) : Char :=
  if 97 ≤ c.toNat ∧ c.toNat ≤ 122 then Char.ofNat (c.toNat - 32) else c

/-- ASCII lowercase of one character, the per-character action of JS
`String.prototype.toLowerCase` on ASCII input. -/
def cLow (c : Char) : Char :=
  if 65 ≤ c.toNat ∧ c.toNat ≤ 90 then Char.ofNat (c.toNat + 32) else c

/-- JS whitespace (the characters `String.prototype.trim` and `Number`
strip): space and the ASCII control whitespace range TAB..CR. -/
def isWs (c : Char) : Bool := c.toNat = 32 ∨ (9 ≤ c.toNat ∧ c.toNat ≤ 13)

/-- Decimal digit. -/
def isDig (c : Char) : Bool := 48 ≤ c.toNat ∧ c.toNat ≤ 57

/-- Hexadecimal digit. -/
def isHexDig (c : Char) : Bool :=
  (48 ≤ c.toNat ∧ c.toNat ≤ 57) ∨ (65 ≤ c.toNat ∧ c.toNat ≤ 70) ∨
    (97 ≤ c.toNat ∧ c.toNat ≤ 102)

/-- Octal digit. -/
def isOct (c : Char) : Bool := 48 ≤ c.toNat ∧ c.toNat ≤ 55

/-- Binary digit. -/
def isBin (c : Char) : Bool := c.toNat = 48 ∨ c.toNat = 49

/-- Value of a decimal digit. -/
def digVal (c : Char) : Nat := c.toNat - 48

/-- Value of a hexadecimal digit (junk outside the hex ranges). -/
def hexVal (c : Char) : Nat :=
  if 48 ≤ c.toNat ∧ c.toNat ≤ 57 then c.toNat - 48
  else if 65 ≤ c.toNat ∧ c.toNat ≤ 70 then c.toNat - 55
  else if 97 ≤ c.toNat ∧ c.toNat ≤ 102 then c.toNat - 87
  else 0

/-- A JavaScript number as produced by `Number(string)`: NaN, ±Infinity,
or a finite decimal value `m * 10 ^ scale` (kept exactly; the claims only
involve values where binary-float rounding is irrelevant). -/
inductive JsNum where
  | nan
  | posInf
  | negInf
  | finite (m : Int) (scale : Int)
deriving DecidableEq

def digitsToNat (l : List Char) : Nat := l.foldl (fun a c => 10 * a + digVal c) 0

def hexToNat (l : List Char) : Nat := l.foldl (fun a c => 16 * a + hexVal c) 0

def octToNat (l : List Char) : Nat := l.foldl (fun a c => 8 * a + digVal c) 0

def binToNat (l : List Char) : Nat := l.foldl (fun a c => 2 * a + digVal c) 0

/-- Longest digit run at the front, and the rest. -/
def takeDigits : List Char → List Char × List Char
  | [] => ([], [])
  | c :: cs =>
    if isDig c then
      let p := takeDigits cs
      (c :: p.1, p.2)
    else ([], c :: cs)

/-- Exponent digit block: the whole rest of the input must be digits. -/
def expDigits (l : List Char) : Option Int :=
  if l ≠ [] ∧ l.all isDig then some ((digitsToNat l : Int)) else none

/-- Exponent body after the `e`/`E` marker: optional sign, then digits. -/
def expAfterE : List Char → Option Int
  | [] => none
  | d :: t =>
    if d = '+' then expDigits t
    else if d = '-' then (expDigits t).map (fun e => -e)
    else expDigits (d :: t)

/-- Optional exponent part, consuming the whole rest of the input.
`some e` on success, `none` when the rest is not a valid exponent. -/
def parseExp : List Char → Option Int
  | [] => some 0
  | c :: r => if c = 'e' ∨ c = 'E' then expAfterE r else none

/-- Rest of a decimal literal after the integer-part digits `ip` were
taken: optional `. Digits`, then optional exponent, consuming everything. -/
def parseDecAfter (ip : List Char) : List Char → Option (Nat × Int)
  | [] => if ip = [] then none else some (digitsToNat ip, 0)
  | c :: r2 =>
    if c = '.' then
      if ip = [] ∧ (takeDigits r2).1 = [] then none
      else
        (parseExp (takeDigits r2).2).map
          (fun e => (digitsToNat (ip ++ (takeDigits r2).1),
            e - (((takeDigits r2).1.length : Int))))
    else if ip = [] then none
    else (parseExp (c :: r2)).map (fun e => (digitsToNat ip, e))

/-- Unsigned decimal literal `Digits [. Digits] [Exp]` or `. Digits [Exp]`,
consuming the whole input; yields mantissa digits and decimal scale. -/
def parseDec (cs : List Char) : Option (Nat × Int) :=
  parseDecAfter (takeDigits cs).1 (takeDigits cs).2

/-- Signed part of the literal after the optional sign was stripped. -/
def jsBody (neg : Bool) (cs : List Char) : JsNum :=
  if cs = "Infinity".toList then (if neg then .negInf else .posInf)
  else
    match parseDec cs with
    | some (m, sc) => .finite (if neg then -(m : Int) else (m : Int)) sc
    | none => .nan

/-- Continuation after a leading `'0'`: a radix literal (`0x`/`0o`/`0b`,
no sign allowed) or an ordinary decimal starting with `0`. -/
def zeroRadix : List Char → JsNum
  | [] => .finite 0 0
  | x :: t =>
    if x = 'x' ∨ x = 'X' then
      if t ≠ [] ∧ t.all isHexDig then .finite (hexToNat t) 0 else .nan
    else if x = 'o' ∨ x = 'O' then
      if t ≠ [] ∧ t.all isOct then .finite (octToNat t) 0 else .nan
    else if x = 'b' ∨ x = 'B' then
      if t ≠ [] ∧ t.all isBin then .finite (binToNat t) 0 else .nan
    else jsBody false ('0' :: x :: t)

/-- `Number` semantics on an already-trimmed character list. -/
def jsParseCore : List Char → JsNum
  | [] => .finite 0 0
  | c :: r =>
    if c = '+' then jsBody false r
    else if c = '-' then jsBody true r
    else if c = '0' then zeroRadix r
    else jsBody false (c :: r)

/-- JS `String.prototype.trim` on a character list. -/
def trimChars (cs : List Char) : List Char :=
  ((cs.dropWhile isWs).reverse.dropWhile isWs).reverse

/-- `Number(s)` for a string `s`. -/
def jsStringToNumber (s : String) : JsNum := jsParseCore (trimChars s.data)

def JsNum.isNaN : JsNum → Bool
  | .nan => true
  | _ => false

/-- The exact integer value of a JS number, when it is a finite integer
(`none` for NaN, ±Infinity, and non-integral finite values). -/
def JsNum.intValue : JsNum → Option Int
  | .finite m sc =>
    if 0 ≤ sc then some (m * (10 : Int) ^ sc.toNat)
    else if m % (10 : Int) ^ (-sc).toNat = 0 then some (m / (10 : Int) ^ (-sc).toNat)
    else none
  | _ => none

/-- Numeric equality of two JS numbers as the store's unique index sees
them (NaN collides with NaN in a Mongo unique index). -/
def JsNum.sameValue : JsNum → JsNum → Bool
  | .nan, .nan => true
  | .posInf, .posInf => true
  | .negInf, .negInf => true
  | .finite m1 s1, .finite m2 s2 =>
    if s1 ≤ s2 then m1 = m2 * (10 : Int) ^ (s2 - s1).toNat
    else m1 * (10 : Int) ^ (s1 - s2).toNat = m2
  | _, _ => false

/-- JS `s.toUpperCase()` (ASCII). -/
def jsUpper (s : String) : String := ⟨s.data.map cUp⟩

/-- JS `s.toLowerCase()` (ASCII). -/
def jsLower (s : String) : String := ⟨s.data.map cLow⟩

/-- Mongoose `isValidObjectId` on a string: a 24-character hexadecimal
identity token (the store's id format, spec §4.1 step 2). -/
def isValidObjectId (s : String) : Bool :=
  s.data.length = 24 && s.data.all isHexDig

/-- What NestJS exceptions the service throws: `BadRequestException` or
`InternalServerErrorException`, each carrying its message. -/
inductive HttpError where
  | badRequest (message : String)
  | internalServerError (message : String)
deriving DecidableEq

/-- A raw error reaching `_errorHandler`: Mongo server errors carry a
numeric `code` (11000 for duplicate keys) and a `keyValue` object;
already-raised HTTP exceptions carry a `status`; all carry a `message`. -/
structure RawError where
  code : Option Nat
  status : Option Nat
  keyValue : List (String × String)
  message : String
deriving DecidableEq

/-- `PokemonService._errorHandler(error, fnName)` (pokemon.service.ts
378-392): duplicate-key code 11000 becomes a `BadRequestException` naming
the offending property and value; a client-caused error (status 400) is
re-raised as a `BadRequestException` with context; anything else becomes
an `InternalServerErrorException`. -/
def errorHandler (error : RawError) (fnName : String) : HttpError :=
  if error.code == some 11000 then
    match error.keyValue with
    | (key, value) :: _ =>
      .badRequest ("Pokemon property " ++ key ++ " with " ++ value ++ " already exists")
    | [] => .badRequest ("Pokemon property undefined with undefined already exists")
  else if error.status == some 400 then
    .badRequest (" Error from " ++ fnName ++ "() - " ++ error.message)
  else
    .internalServerError (" Error from " ++ fnName ++ "(), " ++ error.message)

/-- A stored document: store-assigned id (hex ObjectId string), unique
`no`, unique `name`. -/
structure Pokemon where
  id : String
  no : Int
  name : String
deriving DecidableEq

/-- The guard of the numeric strategy: `!isNaN(+term)`
(pokemon.service.ts line 226). -/
def numericStrategyApplies (term : String) : Bool :=
  !(jsStringToNumber term).isNaN

/-- Whether a stored record matches the query `{ no: term }`: Mongoose
casts the string to a number; a record matches when that number equals its
integer `no`. -/
def noMatches (term : String) (r : Pokemon) : Bool :=
  match (jsStringToNumber term).intValue with
  | some k => r.no == k
  | none => false

/-- Step 1 of `findOne`: `if (!isNaN(+term)) pokemon = await
this.pokemonModel.findOne({ no: term })`. -/
def numericLookup (db : List Pokemon) (term : String) : Option Pokemon :=
  if numericStrategyApplies term then db.find? (noMatches term) else none

/-- Step 2: `if (!pokemon && isValidObjectId(term)) pokemon = await
this.pokemonModel.findById(term)`; ObjectId comparison is
case-insensitive on the hex digits. -/
def idLookup (db : List Pokemon) (term : String) : Option Pokemon :=
  if isValidObjectId term then
    db.find? (fun r => r.id.data.map cLow == term.data.map cLow)
  else none

/-- The name key of step 3: `term.toLowerCase().trim()`. -/
def nameKey (term : String) : List Char := trimChars (term.data.map cLow)

/-- Step 3: `if (!pokemon) pokemon = await this.pokemonModel.findOne({
name: term.toLowerCase().trim() })`. -/
def nameLookup (db : List Pokemon) (term : String) : Option Pokemon :=
  db.find? (fun r => r.name.data == nameKey term)

/-- The three ordered, short-circuiting lookup strategies of `findOne`
(pokemon.service.ts 226-235). -/
def findOneSteps (db : List Pokemon) (term : String) : Option Pokemon :=
  match numericLookup db term with
  | some p => some p
  | none =>
    match idLookup db term with
    | some p => some p
    | none => nameLookup db term

/-- `PokemonService.findOne(term)` (pokemon.service.ts 220-248): the three
strategies in order; if none matches, the `BadRequestException` thrown at
line 239 is caught and re-wrapped by `_errorHandler(error, 'findOne')`. -/
def findOne (db : List Pokemon) (term : String) : Except HttpError Pokemon :=
  match findOneSteps db term with
  | some p => .ok p
  | none =>
    .error (errorHandler
      ⟨none, some 400, [], "Pokemon with name or no " ++ term ++ " not found"⟩
      "findOne")

structure CreatePokemonDto where
  no : Int
  name : String
deriving DecidableEq

/-- `PokemonService.create`: lowercases the name, then inserts; a
duplicate key on either unique index raises the Mongo 11000 error, which
`_errorHandler` converts. `newId` is the store-assigned ObjectId. -/
def create (db : List Pokemon) (newId : String) (dto : CreatePokemonDto) :
    List Pokemon × Except HttpError Pokemon :=
  let nm := jsLower dto.name
  if db.any (fun r => r.no == dto.no) then
    (db, .error (errorHandler ⟨some 11000, none, [("no", toString dto.no)], "E11000"⟩ "create"))
  else if db.any (fun r => r.name == nm) then
    (db, .error (errorHandler ⟨some 11000, none, [("name", nm)], "E11000"⟩ "create"))
  else
    let p : Pokemon := ⟨newId, dto.no, nm⟩
    (db ++ [p], .ok p)

/-- One entry of the PokeAPI response: `{ name, url }`. -/
structure SourceEntry where
  name : String
  url : String
deriving DecidableEq

/-- Outcome of the external HTTP fetch, supplied by the environment. -/
inductive FetchOutcome where
  | ok (results : List SourceEntry)
  | fail (message : String)
deriving DecidableEq

/-- Environment of one seed run: the fetch outcome, and an optional store
failure thrown by `insertMany` in place of its normal behaviour (`none`
means the store is healthy, so the only possible insert errors are the
duplicate-key conflicts computed from the data itself). -/
structure SeedEnv where
  fetch : FetchOutcome
  storeFault : Option RawError

/-- A document inserted by the seed: `{ no, name }`, where `no` is the JS
number produced by `+urlParts[urlParts.length - 2]`. -/
structure SeedDoc where
  no : JsNum
  name : String
deriving DecidableEq

/-- JS `str.split('/')` on a character list. -/
def splitSlash : List Char → List (List Char)
  | [] => [[]]
  | c :: r =>
    if c = '/' then [] :: splitSlash r
    else
      match splitSlash r with
      | [] => [[c]]
      | h :: t => (c :: h) :: t

/-- `const urlParts = url.split('/'); const no = +urlParts[urlParts.length
- 2]` (seed.service.ts 68-69): `undefined` (fewer than two segments)
coerces to NaN. -/
def urlNo (url : String) : JsNum :=
  let parts := splitSlash url.data
  if parts.length < 2 then .nan
  else
    match parts.get? (parts.length - 2) with
    | some seg => jsParseCore (trimChars seg)
    | none => .nan

/-- The per-entry transform `({ name, url }) => { no, name }`. -/
def seedTransform (e : SourceEntry) : SeedDoc := ⟨urlNo e.url, e.name⟩

/-- `results.map(...)` in `excuteSeed`. -/
def seedBatch (results : List SourceEntry) : List SeedDoc :=
  results.map seedTransform

/-- `data.results.forEach(... toInsertPokemon.push(...))` in
`excuteSeedWithAdapter`. -/
def seedBatchAdapter (results : List SourceEntry) : List SeedDoc :=
  results.foldl (fun acc e => acc ++ [seedTransform e]) []

/-- Whether inserting `d` violates one of the two unique indexes against
the documents already present. -/
def seedConflicts (acc : List SeedDoc) (d : SeedDoc) : Bool :=
  acc.any (fun e => JsNum.sameValue e.no d.no || e.name == d.name)

/-- `insertMany(batch, { ordered: false })` against a healthy store:
every document is attempted; conflicting ones are skipped. Returns the
final collection and the number of duplicate-key conflicts. -/
def insertManyUnordered (db : List SeedDoc) (batch : List SeedDoc) :
    List SeedDoc × Nat :=
  batch.foldl
    (fun (st : List SeedDoc × Nat) d =>
      if seedConflicts st.1 d then (st.1, st.2 + 1) else (st.1 ++ [d], st.2))
    (db, 0)

/-- Store / network operations a seed run performs, in order. -/
inductive SeedOp where
  | clearOp
  | fetchOp
  | insertOp (batch : List SeedDoc)
deriving DecidableEq

/-- Errors a seed run can reject with: a NestJS HTTP exception, or the
plain `Error` thrown by `HttpAdapter.get`. -/
inductive SeedError where
  | http (e : HttpError)
  | jsError (message : String)
deriving DecidableEq

deriving instance DecidableEq for Except

/-- Observable result of one seed run: the ordered operation trace, the
final collection contents (`none` when an injected store fault leaves
them undetermined), and the returned value or rejection. -/
structure SeedResult where
  trace : List SeedOp
  db : Option (List SeedDoc)
  outcome : Except SeedError String
deriving DecidableEq

/-- `SeedService.excuteSeed` (seed.service.ts 49-85): clear the
collection; fetch (failure becomes `BadRequestException('Error in the
excuteSeed method')` and propagates, nothing rolls the clear back);
transform; `insertMany` unordered, catching only duplicate-key (11000)
errors with a warning; any other insert error becomes
`BadRequestException('Unexpected error:')`; return the fixed success
message. -/
def excuteSeed (env : SeedEnv) : SeedResult :=
  match env.fetch with
  | .fail _ =>
    ⟨[.clearOp, .fetchOp], some [],
      .error (.http (.badRequest "Error in the excuteSeed method"))⟩
  | .ok results =>
    let pokemonData := seedBatch results
    match env.storeFault with
    | some e =>
      if e.code == some 11000 then
        ⟨[.clearOp, .fetchOp, .insertOp pokemonData], none,
          .ok "Recarga de datos exitosa"⟩
      else
        ⟨[.clearOp, .fetchOp, .insertOp pokemonData], none,
          .error (.http (.badRequest "Unexpected error:"))⟩
    | none =>
      ⟨[.clearOp, .fetchOp, .insertOp pokemonData],
        some (insertManyUnordered [] pokemonData).1,
        .ok "Recarga de datos exitosa"⟩

/-- `SeedService.excuteSeedWithAdapter` (seed.service.ts 128-164): same
pipeline, but the fetch goes through `HttpAdapter.get`, whose failure is a
plain `Error('Error fetching data: ...')`, and the batch is built by
`forEach` + `push`. -/
def excuteSeedWithAdapter (env : SeedEnv) : SeedResult :=
  match env.fetch with
  | .fail m =>
    ⟨[.clearOp, .fetchOp], some [],
      .error (.jsError ("Error fetching data: " ++ m))⟩
  | .ok results =>
    let toInsertPokemon := seedBatchAdapter results
    match env.storeFault with
    | some e =>
      if e.code == some 11000 then
        ⟨[.clearOp, .fetchOp, .insertOp toInsertPokemon], none,
          .ok "Recarga de datos exitosa"⟩
      else
        ⟨[.clearOp, .fetchOp, .insertOp toInsertPokemon], none,
          .error (.http (.badRequest "Unexpected error:"))⟩
    | none =>
      ⟨[.clearOp, .fetchOp, .insertOp toInsertPokemon],
        some (insertManyUnordered [] toInsertPokemon).1,
        .ok "Recarga de datos exitosa"⟩

/-- Reversed decimal digits of `n`, with explicit fuel (`fuel ≥ n`
suffices) so that the definition is structural and evaluates by `decide`. -/
def digsRevFuel : Nat → Nat → List Char
  | _, 0 => []
  | 0, _ + 1 => []
  | fuel + 1, n + 1 => Char.ofNat (48 + (n + 1) % 10) :: digsRevFuel fuel ((n + 1) / 10)

/-- Decimal digits of a positive natural number, most significant first. -/
def natDigits (n : Nat) : List Char := (digsRevFuel n n).reverse

/-- The decimal string of an integer. -/
def decimalString (n : Int) : String :=
  if n < 0 then ⟨'-' :: natDigits n.natAbs⟩
  else if n = 0 then "0"
  else ⟨natDigits n.natAbs⟩

/-- A term that "parses fully as a decimal integer" in the words of spec
§4.1 step 1: an optional sign followed by one or more decimal digits and
nothing else. (Spec-side definition, to be compared with the code's
`!isNaN(+term)` guard.) -/
def fullDecIntChars : List Char → Bool
  | [] => false
  | c :: r =>
    if c = '+' ∨ c = '-' then !r.isEmpty && r.all isDig
    else isDig c && r.all isDig

def isFullDecimalInteger (s : String) : Bool := fullDecIntChars s.data

/-! ## Theorems -/

theorem toNat_ofNat_small (n : Nat) (h : n < 55296) : (Char.ofNat n).toNat = n := by
  have hv : n.isValidChar := Or.inl h
  simp [Char.ofNat, hv, Char.ofNatAux, Char.toNat, UInt32.toNat]

theorem char_toNat_inj {c d : Char} (h : c.toNat = d.toNat) : c = d := by
  have h2 := congrArg Char.ofNat h
  rwa [Char.ofNat_toNat, Char.ofNat_toNat] at h2

theorem cUp_toNat (c : Char) :
    (cUp c).toNat = if 97 ≤ c.toNat ∧ c.toNat ≤ 122 then c.toNat - 32 else c.toNat := by
  unfold cUp
  by_cases h : 97 ≤ c.toNat ∧ c.toNat ≤ 122
  · rw [if_pos h, if_pos h]
    exact toNat_ofNat_small _ (by omega)
  · rw [if_neg h, if_neg h]

theorem cLow_toNat (c : Char) :
    (cLow c).toNat = if 65 ≤ c.toNat ∧ c.toNat ≤ 90 then c.toNat + 32 else c.toNat := by
  unfold cLow
  by_cases h : 65 ≤ c.toNat ∧ c.toNat ≤ 90
  · rw [if_pos h, if_pos h]
    exact toNat_ofNat_small _ (by omega)
  · rw [if_neg h, if_neg h]

theorem cLow_cUp (c : Char) : cLow (cUp c) = cLow c := by
  apply char_toNat_inj
  rw [cLow_toNat, cLow_toNat, cUp_toNat]
  by_cases h : 97 ≤ c.toNat ∧ c.toNat ≤ 122
  · rw [if_pos h]
    have h1 : 65 ≤ c.toNat - 32 ∧ c.toNat - 32 ≤ 90 := by omega
    have h2 : ¬(65 ≤ c.toNat ∧ c.toNat ≤ 90) := by omega
    rw [if_pos h1, if_neg h2]
    omega
  · rw [if_neg h]

theorem isWs_cUp (c : Char) : isWs (cUp c) = isWs c := by
  unfold isWs
  rw [cUp_toNat]
  by_cases h : 97 ≤ c.toNat ∧ c.toNat ≤ 122
  · rw [if_pos h]
    simp only [decide_eq_decide]
    omega
  · rw [if_neg h]

theorem isDig_cUp (c : Char) : isDig (cUp c) = isDig c := by
  unfold isDig
  rw [cUp_toNat]
  by_cases h : 97 ≤ c.toNat ∧ c.toNat ≤ 122
  · rw [if_pos h]
    simp only [decide_eq_decide]
    omega
  · rw [if_neg h]

theorem isHexDig_cUp (c : Char) : isHexDig (cUp c) = isHexDig c := by
  unfold isHexDig
  rw [cUp_toNat]
  by_cases h : 97 ≤ c.toNat ∧ c.toNat ≤ 122
  · rw [if_pos h]
    simp only [decide_eq_decide]
    omega
  · rw [if_neg h]

theorem isOct_cUp (c : Char) : isOct (cUp c) = isOct c := by
  unfold isOct
  rw [cUp_toNat]
  by_cases h : 97 ≤ c.toNat ∧ c.toNat ≤ 122
  · rw [if_pos h]
    simp only [decide_eq_decide]
    omega
  · rw [if_neg h]

theorem isBin_cUp (c : Char) : isBin (cUp c) = isBin c := by
  unfold isBin
  rw [cUp_toNat]
  by_cases h : 97 ≤ c.toNat ∧ c.toNat ≤ 122
  · rw [if_pos h]
    simp only [decide_eq_decide]
    omega
  · rw [if_neg h]

theorem hexVal_cUp (c : Char) : hexVal (cUp c) = hexVal c := by
  unfold hexVal
  rw [cUp_toNat]
  by_cases h : 97 ≤ c.toNat ∧ c.toNat ≤ 122
  · rw [if_pos h]
    split_ifs <;> omega
  · rw [if_neg h]

/-- A character `t` that is not an uppercase ASCII letter is hit by `cUp`
only from `t` itself. -/
theorem cUp_eq_iff_of_not_upper {t : Char}
    (h1 : t.toNat < 65 ∨ (90 < t.toNat ∧ t.toNat < 97) ∨ 122 < t.toNat)
    (c : Char) : (cUp c = t) = (c = t) := by
  apply propext
  constructor
  · intro h
    have ht : (cUp c).toNat = t.toNat := by rw [h]
    rw [cUp_toNat] at ht
    by_cases hc : 97 ≤ c.toNat ∧ c.toNat ≤ 122
    · rw [if_pos hc] at ht
      exfalso
      omega
    · rw [if_neg hc] at ht
      exact char_toNat_inj ht
  · intro h
    rw [h]
    unfold cUp
    have h2 : ¬(97 ≤ t.toNat ∧ t.toNat ≤ 122) := by omega
    rw [if_neg h2]

/-- An uppercase letter `tup` is hit by `cUp` exactly from itself and its
lowercase counterpart `tlo` (`toNat` distance 32). -/
theorem cUp_eq_upper_iff (tup tlo : Char) (hup : 65 ≤ tup.toNat ∧ tup.toNat ≤ 90)
    (hdist : tlo.toNat = tup.toNat + 32) (c : Char) :
    (cUp c = tup) = (c = tlo ∨ c = tup) := by
  apply propext
  constructor
  · intro h
    have ht : (cUp c).toNat = tup.toNat := by rw [h]
    rw [cUp_toNat] at ht
    by_cases hc : 97 ≤ c.toNat ∧ c.toNat ≤ 122
    · rw [if_pos hc] at ht
      left
      apply char_toNat_inj
      omega
    · rw [if_neg hc] at ht
      right
      exact char_toNat_inj ht
  · intro h
    cases h with
    | inl h =>
      rw [h]
      unfold cUp
      have hc : 97 ≤ tlo.toNat ∧ tlo.toNat ≤ 122 := by omega
      rw [if_pos hc]
      apply char_toNat_inj
      rw [toNat_ofNat_small _ (by omega)]
      omega
    | inr h =>
      rw [h]
      unfold cUp
      have h2 : ¬(97 ≤ tup.toNat ∧ tup.toNat ≤ 122) := by omega
      rw [if_neg h2]

/-- `cUp` never produces a lowercase ASCII letter. -/
theorem cUp_ne_lower {t : Char} (h : 97 ≤ t.toNat ∧ t.toNat ≤ 122) (c : Char) :
    cUp c ≠ t := by
  intro hEq
  have ht : (cUp c).toNat = t.toNat := by rw [hEq]
  rw [cUp_toNat] at ht
  by_cases hc : 97 ≤ c.toNat ∧ c.toNat ≤ 122
  · rw [if_pos hc] at ht
    omega
  · rw [if_neg hc] at ht
    omega

theorem cUp_of_isDig {c : Char} (h : isDig c = true) : cUp c = c := by
  unfold isDig at h
  unfold cUp
  have h2 : ¬(97 ≤ c.toNat ∧ c.toNat ≤ 122) := by
    simp only [decide_eq_true_eq] at h
    omega
  rw [if_neg h2]

example : jsStringToNumber "1.5" = .finite 15 (-1) := by decide

example : (jsStringToNumber "1.5").intValue = none := by decide

example : (jsStringToNumber "").isNaN = false := by decide

example : (jsStringToNumber "  42  ").intValue = some 42 := by decide

example : (jsStringToNumber "0x1f").intValue = some 31 := by decide

example : (jsStringToNumber "-0x10").isNaN = true := by decide

example : (jsStringToNumber "1e3").intValue = some 1000 := by decide

example : (jsStringToNumber "-2").intValue = some (-2) := by decide

example : (jsStringToNumber "Infinity") = .posInf := by decide

example : (jsStringToNumber "INFINITY").isNaN = true := by decide

example : (jsStringToNumber "pikachu").isNaN = true := by decide

example : (jsStringToNumber "12abc").isNaN = true := by decide

example : (jsStringToNumber "0.").intValue = some 0 := by decide

example : (jsStringToNumber ".5") = .finite 5 (-1) := by decide

example : (jsStringToNumber "0b101").intValue = some 5 := by decide

example : (jsStringToNumber "0o17").intValue = some 15 := by decide

example : (jsStringToNumber "1.5e1").intValue = some 15 := by decide

example : urlNo "https://pokeapi.co/api/v2/pokemon/1/" = .finite 1 0 := by decide

example : urlNo "noslash" = .nan := by decide

example :
    (insertManyUnordered []
      [⟨.finite 1 0, "a"⟩, ⟨.finite 1 0, "b"⟩, ⟨.finite 2 0, "c"⟩]) =
    ([⟨.finite 1 0, "a"⟩, ⟨.finite 2 0, "c"⟩], 1) := by decide

theorem digitsToNat_append_singleton (l : List Char) (c : Char) :
    digitsToNat (l ++ [c]) = 10 * digitsToNat l + digVal c := by
  unfold digitsToNat
  rw [List.foldl_append]
  rfl

theorem digsRevFuel_spec :
    ∀ fuel n, n ≤ fuel →
      (digsRevFuel fuel n).all isDig = true ∧
        digitsToNat (digsRevFuel fuel n).reverse = n := by
  intro fuel
  induction fuel with
  | zero =>
    intro n hn
    have : n = 0 := by omega
    subst this
    exact ⟨rfl, rfl⟩
  | succ f ih =>
    intro n hn
    match n with
    | 0 => exact ⟨rfl, rfl⟩
    | m + 1 =>
      have hdiv : (m + 1) / 10 ≤ f := by
        have := Nat.div_lt_self (Nat.succ_pos m) (by omega : 1 < 10)
        omega
      obtain ⟨ihAll, ihVal⟩ := ih ((m + 1) / 10) hdiv
      have hmod : (m + 1) % 10 < 10 := Nat.mod_lt _ (by omega)
      have hToNat : (Char.ofNat (48 + (m + 1) % 10)).toNat = 48 + (m + 1) % 10 :=
        toNat_ofNat_small _ (by omega)
      constructor
      · show (Char.ofNat (48 + (m + 1) % 10) :: digsRevFuel f ((m + 1) / 10)).all isDig = true
        rw [List.all_cons, ihAll]
        have : isDig (Char.ofNat (48 + (m + 1) % 10)) = true := by
          unfold isDig
          rw [hToNat]
          simp only [decide_eq_true_eq]
          omega
        rw [this]
        rfl
      · show digitsToNat (Char.ofNat (48 + (m + 1) % 10) ::
            digsRevFuel f ((m + 1) / 10)).reverse = m + 1
        rw [List.reverse_cons, digitsToNat_append_singleton, ihVal]
        unfold digVal
        rw [hToNat]
        omega

theorem natDigits_all_isDig (n : Nat) : (natDigits n).all isDig = true := by
  unfold natDigits
  rw [List.all_reverse]
  exact (digsRevFuel_spec n n (Nat.le_refl n)).1

theorem digitsToNat_natDigits (n : Nat) : digitsToNat (natDigits n) = n :=
  (digsRevFuel_spec n n (Nat.le_refl n)).2

theorem natDigits_ne_nil {n : Nat} (h : 0 < n) : natDigits n ≠ [] := by
  unfold natDigits
  match n, h with
  | m + 1, _ =>
    show (digsRevFuel (m + 1) (m + 1)).reverse ≠ []
    simp [digsRevFuel]

theorem list_find?_eq_some_of_unique {α : Type} {p : α → Bool} {l : List α} {a : α}
    (hmem : a ∈ l) (hp : p a = true)
    (huniq : ∀ b ∈ l, p b = true → b = a) :
    l.find? p = some a := by
  induction l with
  | nil => cases hmem
  | cons c t ih =>
    by_cases hc : p c = true
    · rw [List.find?_cons_of_pos _ hc]
      have : c = a := huniq c (List.mem_cons_self c t) hc
      rw [this]
    · rw [List.find?_cons_of_neg _ (by simpa using hc)]
      have hat : a ∈ t := by
        cases hmem with
        | head => exact absurd hp hc
        | tail _ h => exact h
      exact ih hat (fun b hb hpb => huniq b (List.mem_cons_of_mem c hb) hpb)

theorem list_find?_append_of_none {α : Type} {p : α → Bool} {l1 l2 : List α}
    (h : l1.find? p = none) : (l1 ++ l2).find? p = l2.find? p := by
  induction l1 with
  | nil => rfl
  | cons c t ih =>
    by_cases hc : p c = true
    · rw [List.find?_cons_of_pos _ hc] at h
      cases h
    · rw [List.cons_append, List.find?_cons_of_neg _ (by simpa using hc)]
      rw [List.find?_cons_of_neg _ (by simpa using hc)] at h
      exact ih h

theorem not_isWs_of_isDig {c : Char} (h : isDig c = true) : isWs c = false := by
  unfold isDig at h
  unfold isWs
  simp only [decide_eq_true_eq] at h
  simp only [decide_eq_false_iff_not]
  omega

theorem dropWhile_isWs_of_all_not_ws {l : List Char} (h : ∀ c ∈ l, isWs c = false) :
    l.dropWhile isWs = l := by
  cases l with
  | nil => rfl
  | cons c t =>
    rw [List.dropWhile_cons, h c (List.mem_cons_self c t)]
    simp

theorem trimChars_of_all_not_ws {l : List Char} (h : ∀ c ∈ l, isWs c = false) :
    trimChars l = l := by
  unfold trimChars
  rw [dropWhile_isWs_of_all_not_ws h,
    dropWhile_isWs_of_all_not_ws (fun c hc => h c (List.mem_reverse.mp hc)),
    List.reverse_reverse]

theorem trimChars_of_all_digits {l : List Char} (h : l.all isDig = true) :
    trimChars l = l :=
  trimChars_of_all_not_ws
    (fun c hc => not_isWs_of_isDig (List.all_eq_true.mp h c hc))

theorem takeDigits_of_all_digits {l : List Char} (h : l.all isDig = true) :
    takeDigits l = (l, []) := by
  induction l with
  | nil => rfl
  | cons c t ih =>
    rw [List.all_cons, Bool.and_eq_true] at h
    unfold takeDigits
    rw [if_pos h.1, ih h.2]

theorem parseDec_of_all_digits {l : List Char} (hne : l ≠ [])
    (h : l.all isDig = true) : parseDec l = some (digitsToNat l, 0) := by
  unfold parseDec
  rw [takeDigits_of_all_digits h]
  show parseDecAfter l [] = _
  rw [show parseDecAfter l [] = if l = [] then none else some (digitsToNat l, 0) from rfl,
    if_neg hne]

theorem list_ne_infinity_of_all_digits {l : List Char} (h : l.all isDig = true) :
    l ≠ "Infinity".toList := by
  intro hEq
  rw [hEq] at h
  exact absurd h (by decide)

theorem jsBody_false_of_all_digits {l : List Char} (hne : l ≠ [])
    (h : l.all isDig = true) :
    jsBody false l = .finite (digitsToNat l) 0 := by
  unfold jsBody
  rw [if_neg (list_ne_infinity_of_all_digits h), parseDec_of_all_digits hne h]
  rfl

theorem jsBody_true_of_all_digits {l : List Char} (hne : l ≠ [])
    (h : l.all isDig = true) :
    jsBody true l = .finite (-(digitsToNat l : Int)) 0 := by
  unfold jsBody
  rw [if_neg (list_ne_infinity_of_all_digits h), parseDec_of_all_digits hne h]
  rfl

theorem char_ne_of_isDig {c d : Char} (h : isDig c = true)
    (hd : isDig d = false) : c ≠ d := by
  intro hEq
  rw [hEq] at h
  rw [h] at hd
  cases hd

/-- Unfolding lemma for `jsParseCore` on a nonempty list. -/
theorem jsParseCore_cons (c : Char) (r : List Char) :
    jsParseCore (c :: r) =
      (if c = '+' then jsBody false r
      else if c = '-' then jsBody true r
      else if c = '0' then zeroRadix r
      else jsBody false (c :: r)) := rfl

/-- Unfolding lemma for `zeroRadix` on a nonempty list. -/
theorem zeroRadix_cons (x : Char) (t : List Char) :
    zeroRadix (x :: t) =
      (if x = 'x' ∨ x = 'X' then
        if t ≠ [] ∧ t.all isHexDig then .finite (hexToNat t) 0 else .nan
      else if x = 'o' ∨ x = 'O' then
        if t ≠ [] ∧ t.all isOct then .finite (octToNat t) 0 else .nan
      else if x = 'b' ∨ x = 'B' then
        if t ≠ [] ∧ t.all isBin then .finite (binToNat t) 0 else .nan
      else jsBody false ('0' :: x :: t)) := rfl

theorem jsParseCore_of_all_digits {l : List Char} (hne : l ≠ [])
    (h : l.all isDig = true) :
    jsParseCore l = .finite (digitsToNat l) 0 := by
  match l, hne with
  | c :: t, _ =>
    rw [List.all_cons, Bool.and_eq_true] at h
    rw [jsParseCore_cons]
    rw [if_neg (char_ne_of_isDig h.1 (by decide))]
    rw [if_neg (char_ne_of_isDig h.1 (by decide))]
    by_cases h0 : c = '0'
    · rw [if_pos h0]
      subst h0
      match t, h with
      | [], _ => decide
      | x :: t2, h =>
        rw [List.all_cons, Bool.and_eq_true] at h
        have hx := h.2.1
        have hnx : ¬(x = 'x' ∨ x = 'X') := by
          rintro (hEq | hEq) <;> exact char_ne_of_isDig hx (by decide) hEq
        have hno : ¬(x = 'o' ∨ x = 'O') := by
          rintro (hEq | hEq) <;> exact char_ne_of_isDig hx (by decide) hEq
        have hnb : ¬(x = 'b' ∨ x = 'B') := by
          rintro (hEq | hEq) <;> exact char_ne_of_isDig hx (by decide) hEq
        rw [zeroRadix_cons, if_neg hnx, if_neg hno, if_neg hnb]
        rw [jsBody_false_of_all_digits (by simp)
          (by rw [List.all_cons, List.all_cons]; simp [h.1, hx, h.2.2])]
    · rw [if_neg h0]
      rw [jsBody_false_of_all_digits (by simp) (by rw [List.all_cons]; simp [h.1, h.2])]

/-- Round trip: parsing the decimal string of an integer yields exactly
that integer as a JS number. -/
theorem jsStringToNumber_decimalString (n : Int) :
    jsStringToNumber (decimalString n) = .finite n 0 := by
  unfold decimalString
  by_cases hneg : n < 0
  · rw [if_pos hneg]
    unfold jsStringToNumber
    show jsParseCore (trimChars ('-' :: natDigits n.natAbs)) = _
    have habs : 0 < n.natAbs := by omega
    have hall : (natDigits n.natAbs).all isDig = true := natDigits_all_isDig _
    have hnotws : ∀ c ∈ '-' :: natDigits n.natAbs, isWs c = false := by
      intro c hc
      cases hc with
      | head => decide
      | tail _ hmem => exact not_isWs_of_isDig (List.all_eq_true.mp hall c hmem)
    rw [trimChars_of_all_not_ws hnotws, jsParseCore_cons]
    rw [if_neg (by decide : ¬('-' : Char) = '+'), if_pos rfl]
    rw [jsBody_true_of_all_digits (natDigits_ne_nil habs) hall,
      digitsToNat_natDigits]
    have : -(n.natAbs : Int) = n := by omega
    rw [this]
  · rw [if_neg hneg]
    by_cases hzero : n = 0
    · rw [if_pos hzero, hzero]
      decide
    · rw [if_neg hzero]
      unfold jsStringToNumber
      show jsParseCore (trimChars (natDigits n.natAbs)) = _
      have habs : 0 < n.natAbs := by omega
      have hall : (natDigits n.natAbs).all isDig = true := natDigits_all_isDig _
      rw [trimChars_of_all_digits hall,
        jsParseCore_of_all_digits (natDigits_ne_nil habs) hall,
        digitsToNat_natDigits]
      have : (n.natAbs : Int) = n := by omega
      rw [this]

/-- The decimal string of an integer is never NaN under `Number`, and its
integer value is the integer itself. -/
theorem intValue_decimalString (n : Int) :
    (jsStringToNumber (decimalString n)).intValue = some n := by
  rw [jsStringToNumber_decimalString]
  simp [JsNum.intValue]

theorem numericStrategyApplies_decimalString (n : Int) :
    numericStrategyApplies (decimalString n) = true := by
  unfold numericStrategyApplies
  rw [jsStringToNumber_decimalString]
  rfl

theorem fullDecIntChars_cons (c : Char) (r : List Char) :
    fullDecIntChars (c :: r) =
      (if c = '+' ∨ c = '-' then !r.isEmpty && r.all isDig
      else isDig c && r.all isDig) := rfl

theorem numericStrategyApplies_of_isFullDecimalInteger (s : String)
    (h : isFullDecimalInteger s = true) : numericStrategyApplies s = true := by
  unfold isFullDecimalInteger at h
  unfold numericStrategyApplies jsStringToNumber
  match hdata : s.data with
  | [] => rw [hdata] at h; cases h
  | c :: r =>
    rw [hdata, fullDecIntChars_cons] at h
    by_cases hsgn : c = '+' ∨ c = '-'
    · rw [if_pos hsgn, Bool.and_eq_true] at h
      have hne : r ≠ [] := by
        intro hEq
        rw [hEq] at h
        cases h.1
      have hnotws : ∀ d ∈ c :: r, isWs d = false := by
        intro d hd
        cases hd with
        | head =>
          cases hsgn with
          | inl hEq => rw [hEq]; decide
          | inr hEq => rw [hEq]; decide
        | tail _ hmem => exact not_isWs_of_isDig (List.all_eq_true.mp h.2 d hmem)
      rw [trimChars_of_all_not_ws hnotws, jsParseCore_cons]
      cases hsgn with
      | inl hEq =>
        rw [if_pos hEq, jsBody_false_of_all_digits hne h.2]
        rfl
      | inr hEq =>
        have hnp : ¬c = '+' := by
          rw [hEq]; decide
        rw [if_neg hnp, if_pos hEq, jsBody_true_of_all_digits hne h.2]
        rfl
    · rw [if_neg hsgn, Bool.and_eq_true] at h
      have hall : (c :: r).all isDig = true := by
        rw [List.all_cons, h.1, h.2]
        rfl
      rw [trimChars_of_all_digits hall,
        jsParseCore_of_all_digits (by simp) hall]
      rfl

/-- Claim C1: for every stored record whose `no` equals an integer `n`,
`findOne` applied to the decimal string of `n` returns that record — even
when another stored record's `name` equals that same string — because the
numeric strategy is tried first and short-circuits. The `db` quantifier
ranges over all collections, including ones containing a record named
`decimalString n`; only uniqueness of `no` (the store's index invariant)
is assumed. -/
theorem c1_numeric_strategy_takes_precedence
    (db : List Pokemon) (n : Int) (r : Pokemon)
    (hmem : r ∈ db) (hno : r.no = n)
    (huniq : ∀ q ∈ db, q.no = n → q = r) :
    findOne db (decimalString n) = .ok r := by
  have hnum : numericLookup db (decimalString n) = some r := by
    unfold numericLookup
    rw [numericStrategyApplies_decimalString, if_pos rfl]
    apply list_find?_eq_some_of_unique hmem
    · unfold noMatches
      rw [intValue_decimalString]
      simp [hno]
    · intro b hb hpb
      apply huniq b hb
      unfold noMatches at hpb
      rw [intValue_decimalString] at hpb
      simpa using hpb
  unfold findOne findOneSteps
  rw [hnum]

/-- Witness for C1: a collection where record `no = 9` is *named* `"5"`
and a different record has `no = 5`; resolving `"5"` returns the latter. -/
theorem c1_witness :
    findOne
      [⟨"507f1f77bcf86cd799439011", 9, "5"⟩,
       ⟨"507f1f77bcf86cd799439012", 5, "mew"⟩]
      (decimalString 5) = .ok ⟨"507f1f77bcf86cd799439012", 5, "mew"⟩ :=
  c1_numeric_strategy_takes_precedence _ 5 _ (by decide) (by decide) (by decide)

/-- Claim C3 (counterexample): the numeric strategy is *not* attempted
exactly for full decimal integers — `"1.5"` has a fractional part,
`"0x10"` has a radix prefix, and `""` is empty, yet `!isNaN(+term)` holds
for all three, so the numeric strategy applies to them. -/
theorem c3_counterexample :
    numericStrategyApplies "1.5" = true ∧ isFullDecimalInteger "1.5" = false ∧
      numericStrategyApplies "0x10" = true ∧ isFullDecimalInteger "0x10" = false ∧
      numericStrategyApplies "" = true ∧ isFullDecimalInteger "" = false := by
  decide

/-- Claim C3 (amended): the resolver attempts the numeric-lookup strategy
iff `+term` is not NaN; every term that parses fully as a decimal integer
does trigger it, but so do some terms that are not full decimal integers
(fractional, radix-prefixed, or empty). -/
theorem c3_amended_numeric_guard :
    (∀ s : String, isFullDecimalInteger s = true → numericStrategyApplies s = true) ∧
      (∀ s : String, numericStrategyApplies s = !(jsStringToNumber s).isNaN) ∧
      numericStrategyApplies "1.5" = true ∧ numericStrategyApplies "0x10" = true ∧
      numericStrategyApplies "" = true := by
  refine ⟨numericStrategyApplies_of_isFullDecimalInteger, fun s => rfl,
    by decide, by decide, by decide⟩

/-- Witness for the amended C3 at the concrete term `"-42"`. -/
theorem c3_amended_witness : numericStrategyApplies "-42" = true :=
  c3_amended_numeric_guard.1 "-42" (by decide)

/-- `_errorHandler` on a re-caught client error (status 400). -/
theorem errorHandler_client (msg fn : String) :
    errorHandler ⟨none, some 400, [], msg⟩ fn =
      .badRequest (" Error from " ++ fn ++ "() - " ++ msg) := rfl

/-- Claim C8: when none of the three strategies matches, `findOne` fails
with the (re-wrapped) `BadRequestException`, and the message presented to
the caller includes the search term. -/
theorem c8_notfound_includes_term (db : List Pokemon) (term : String)
    (h : findOneSteps db term = none) :
    ∃ s1 s2 : String,
      findOne db term = .error (.badRequest (s1 ++ term ++ s2)) ∧
      s1 = " Error from findOne() - Pokemon with name or no " ∧
      s2 = " not found" := by
  refine ⟨" Error from " ++ "findOne" ++ "() - " ++ "Pokemon with name or no ",
    " not found", ?_, by decide, rfl⟩
  unfold findOne
  rw [h, errorHandler_client]
  simp only [String.append_assoc]

/-- Witness for C8: `resolve("doesnotexist123")` on an empty collection. -/
theorem c8_witness :
    ∃ s1 s2 : String,
      findOne [] "doesnotexist123" = .error (.badRequest (s1 ++ "doesnotexist123" ++ s2)) ∧
      s1 = " Error from findOne() - Pokemon with name or no " ∧
      s2 = " not found" :=
  c8_notfound_includes_term [] "doesnotexist123" (by decide)

/-- Claim C9: the error classifier turns every raw store error with the
uniqueness-violation code 11000 into a client-recoverable
`BadRequestException` whose message includes the offending field name and
value; an error that is neither a uniqueness violation (code 11000) nor
already client-caused (status 400) becomes an opaque
`InternalServerErrorException`. -/
theorem c9_error_classifier :
    (∀ (e : RawError) (fn k v : String) (rest : List (String × String)),
      e.code = some 11000 → e.keyValue = (k, v) :: rest →
      ∃ s1 s2 s3 : String,
        errorHandler e fn = .badRequest (s1 ++ k ++ s2 ++ v ++ s3)) ∧
    (∀ (e : RawError) (fn : String),
      e.code ≠ some 11000 → e.status ≠ some 400 →
      errorHandler e fn =
        .internalServerError (" Error from " ++ fn ++ "(), " ++ e.message)) := by
  constructor
  · intro e fn k v rest hcode hkv
    refine ⟨"Pokemon property ", " with ", " already exists", ?_⟩
    unfold errorHandler
    rw [hcode, hkv]
    rfl
  · intro e fn hcode hstatus
    unfold errorHandler
    rw [if_neg (fun hcontra => hcode (by simpa using hcontra))]
    rw [if_neg (fun hcontra => hstatus (by simpa using hcontra))]

/-- Witness for C9: a duplicate-`name` error from `create`, and an
unclassified error from `findAll`. -/
theorem c9_witness :
    (∃ s1 s2 s3 : String,
      errorHandler ⟨some 11000, none, [("name", "pikachu")], "E11000"⟩ "create" =
        .badRequest (s1 ++ "name" ++ s2 ++ "pikachu" ++ s3)) ∧
    errorHandler ⟨none, none, [], "boom"⟩ "findAll" =
      .internalServerError (" Error from " ++ "findAll" ++ "(), " ++ "boom") :=
  ⟨c9_error_classifier.1 _ "create" "name" "pikachu" [] rfl rfl,
    c9_error_classifier.2 ⟨none, none, [], "boom"⟩ "findAll" (by decide) (by decide)⟩

/-- Clearing, fetching and inserting: `foldl`-with-`push` builds the same
batch as `map`. -/
theorem foldl_push_eq_map {α β : Type} (f : α → β) (l : List α) :
    l.foldl (fun acc e => acc ++ [f e]) [] = l.map f := by
  have key : ∀ acc : List β, l.foldl (fun acc e => acc ++ [f e]) acc = acc ++ l.map f := by
    induction l with
    | nil => intro acc; simp
    | cons c t ih => intro acc; simp [ih]
  simpa using key []

theorem seedBatchAdapter_eq_seedBatch (results : List SourceEntry) :
    seedBatchAdapter results = seedBatch results :=
  foldl_push_eq_map seedTransform results

/-- Claim C2 (counterexample): a successful reseed does not return a
`Summary{inserted, duplicatesSkipped}` — it returns the fixed string
`'Recarga de datos exitosa'`. Two successful runs whose batches skip
different numbers of duplicates (1 vs 0) return the *identical* value, so
the result cannot carry the duplicate count. -/
theorem c2_counterexample :
    (excuteSeed ⟨.ok [⟨"bulbasaur", "https://pokeapi.co/api/v2/pokemon/1/"⟩,
                      ⟨"clone", "https://pokeapi.co/api/v2/pokemon/1/"⟩], none⟩).outcome =
      (excuteSeed ⟨.ok [⟨"bulbasaur", "https://pokeapi.co/api/v2/pokemon/1/"⟩], none⟩).outcome ∧
    (insertManyUnordered []
      (seedBatch [⟨"bulbasaur", "https://pokeapi.co/api/v2/pokemon/1/"⟩,
                  ⟨"clone", "https://pokeapi.co/api/v2/pokemon/1/"⟩])).2 = 1 ∧
    (insertManyUnordered []
      (seedBatch [⟨"bulbasaur", "https://pokeapi.co/api/v2/pokemon/1/"⟩])).2 = 0 ∧
    (excuteSeed ⟨.ok [⟨"bulbasaur", "https://pokeapi.co/api/v2/pokemon/1/"⟩,
                      ⟨"clone", "https://pokeapi.co/api/v2/pokemon/1/"⟩], none⟩).outcome =
      .ok "Recarga de datos exitosa" := by
  decide

/-- Claim C2 (amended): every successful reseed invocation returns the
fixed success message `'Recarga de datos exitosa'` (duplicates are
tolerated and skipped — for a batch with two entries of the same `no`
exactly one is persisted — but no inserted/duplicate counts are
reported). -/
theorem c2_amended_fixed_message (results : List SourceEntry) (sf : Option RawError)
    (hdup : ∀ e, sf = some e → e.code = some 11000) :
    (excuteSeed ⟨.ok results, sf⟩).outcome = .ok "Recarga de datos exitosa" ∧
    (excuteSeed ⟨.ok [⟨"bulbasaur", "https://pokeapi.co/api/v2/pokemon/1/"⟩,
                      ⟨"clone", "https://pokeapi.co/api/v2/pokemon/1/"⟩], none⟩).db =
      some [⟨.finite 1 0, "bulbasaur"⟩] := by
  constructor
  · cases hsf : sf with
    | none => rfl
    | some e =>
      have hc := hdup e hsf
      simp [excuteSeed, hc]
  · decide

/-- Witness for the amended C2: a healthy store and a one-entry fetch. -/
theorem c2_amended_witness :
    (excuteSeed ⟨.ok [⟨"bulbasaur", "https://pokeapi.co/api/v2/pokemon/1/"⟩], none⟩).outcome =
      .ok "Recarga de datos exitosa" :=
  (c2_amended_fixed_message _ none (fun e h => by cases h)).1

/-- Claim C4: when the only insertion errors are duplicate-key conflicts
(a healthy store computes them from the data, or the thrown error carries
code 11000) the reseed does not fail and the non-conflicting records are
kept; when a non-duplicate error occurs during insertion, the operation
aborts with the `BadRequestException('Unexpected error:')`. -/
theorem c4_insert_error_classification (results : List SourceEntry) :
    ((excuteSeed ⟨.ok results, none⟩).outcome = .ok "Recarga de datos exitosa" ∧
      (excuteSeed ⟨.ok results, none⟩).db =
        some (insertManyUnordered [] (seedBatch results)).1) ∧
    (∀ e : RawError, e.code = some 11000 →
      (excuteSeed ⟨.ok results, some e⟩).outcome = .ok "Recarga de datos exitosa") ∧
    (∀ e : RawError, e.code ≠ some 11000 →
      (excuteSeed ⟨.ok results, some e⟩).outcome =
        .error (.http (.badRequest "Unexpected error:"))) := by
  refine ⟨⟨rfl, rfl⟩, ?_, ?_⟩
  · intro e hc
    simp [excuteSeed, hc]
  · intro e hc
    simp [excuteSeed, hc]

/-- Witness for C4 at a one-entry batch, with a duplicate-key error and
with a non-duplicate error. -/
theorem c4_witness :
    (excuteSeed ⟨.ok [⟨"bulbasaur", "https://pokeapi.co/api/v2/pokemon/1/"⟩],
        some ⟨some 11000, none, [], "E11000 duplicate key"⟩⟩).outcome =
      .ok "Recarga de datos exitosa" ∧
    (excuteSeed ⟨.ok [⟨"bulbasaur", "https://pokeapi.co/api/v2/pokemon/1/"⟩],
        some ⟨none, none, [], "connection lost"⟩⟩).outcome =
      .error (.http (.badRequest "Unexpected error:")) :=
  ⟨(c4_insert_error_classification _).2.1 _ rfl,
    (c4_insert_error_classification _).2.2 _ (by decide)⟩

/-- Claim C5: a failed fetch aborts the reseed with the
`BadRequestException('Error in the excuteSeed method')` before any insert
is attempted, leaving the collection empty (the unconditional clear has
already run and is not rolled back); and in every run the trace is
`clear`, then `fetch`, then (at most) one `insert` — no reordering. -/
theorem c5_fetch_failure_and_ordering :
    (∀ (m : String) (sf : Option RawError),
      excuteSeed ⟨.fail m, sf⟩ =
        ⟨[.clearOp, .fetchOp], some [],
          .error (.http (.badRequest "Error in the excuteSeed method"))⟩) ∧
    (∀ env : SeedEnv,
      (excuteSeed env).trace = [.clearOp, .fetchOp] ∨
        ∃ b, (excuteSeed env).trace = [.clearOp, .fetchOp, .insertOp b]) := by
  constructor
  · intro m sf
    rfl
  · intro env
    obtain ⟨f, sf⟩ := env
    cases f with
    | fail m => left; rfl
    | ok results =>
      right
      cases sf with
      | none => exact ⟨seedBatch results, rfl⟩
      | some e =>
        refine ⟨seedBatch results, ?_⟩
        by_cases hc : (e.code == some 11000) = true
        · simp [excuteSeed, hc]
        · simp [excuteSeed, hc]

/-- Claim C6: the transform pairs each entry's unmodified name with the
number parsed from the second-to-last path segment of its URL, and the
bulbasaur/ivysaur source yields exactly the two expected records. -/
theorem c6_transform_and_scenario :
    (∀ e : SourceEntry, seedTransform e = ⟨urlNo e.url, e.name⟩) ∧
    excuteSeed ⟨.ok [⟨"bulbasaur", "https://pokeapi.co/api/v2/pokemon/1/"⟩,
                     ⟨"ivysaur", "https://pokeapi.co/api/v2/pokemon/2/"⟩], none⟩ =
      ⟨[.clearOp, .fetchOp,
          .insertOp [⟨.finite 1 0, "bulbasaur"⟩, ⟨.finite 2 0, "ivysaur"⟩]],
        some [⟨.finite 1 0, "bulbasaur"⟩, ⟨.finite 2 0, "ivysaur"⟩],
        .ok "Recarga de datos exitosa"⟩ :=
  ⟨fun e => rfl, by decide⟩

theorem map_cUp_of_all_isDig {l : List Char} (h : l.all isDig = true) :
    l.map cUp = l := by
  induction l with
  | nil => rfl
  | cons c t ih =>
    rw [List.all_cons, Bool.and_eq_true] at h
    rw [List.map_cons, cUp_of_isDig h.1, ih h.2]

theorem all_isDig_map_cUp (l : List Char) :
    (l.map cUp).all isDig = l.all isDig := by
  rw [List.all_map]
  induction l with
  | nil => rfl
  | cons c t ih =>
    rw [List.all_cons, List.all_cons, ih, Function.comp_apply, isDig_cUp]

theorem all_isHexDig_map_cUp (l : List Char) :
    (l.map cUp).all isHexDig = l.all isHexDig := by
  rw [List.all_map]
  induction l with
  | nil => rfl
  | cons c t ih =>
    rw [List.all_cons, List.all_cons, ih, Function.comp_apply, isHexDig_cUp]

theorem all_isOct_map_cUp (l : List Char) :
    (l.map cUp).all isOct = l.all isOct := by
  rw [List.all_map]
  induction l with
  | nil => rfl
  | cons c t ih =>
    rw [List.all_cons, List.all_cons, ih, Function.comp_apply, isOct_cUp]

theorem all_isBin_map_cUp (l : List Char) :
    (l.map cUp).all isBin = l.all isBin := by
  rw [List.all_map]
  induction l with
  | nil => rfl
  | cons c t ih =>
    rw [List.all_cons, List.all_cons, ih, Function.comp_apply, isBin_cUp]

theorem hexToNat_map_cUp (l : List Char) : hexToNat (l.map cUp) = hexToNat l := by
  unfold hexToNat
  have key : ∀ acc : Nat,
      (l.map cUp).foldl (fun a c => 16 * a + hexVal c) acc =
        l.foldl (fun a c => 16 * a + hexVal c) acc := by
    induction l with
    | nil => intro acc; rfl
    | cons c t ih =>
      intro acc
      rw [List.map_cons, List.foldl_cons, List.foldl_cons, hexVal_cUp]
      exact ih _
  exact key 0

theorem dropWhile_isWs_map_cUp (l : List Char) :
    (l.map cUp).dropWhile isWs = (l.dropWhile isWs).map cUp := by
  induction l with
  | nil => rfl
  | cons c t ih =>
    rw [List.map_cons, List.dropWhile_cons, List.dropWhile_cons, isWs_cUp]
    cases h : isWs c with
    | true => simpa using ih
    | false => simp

theorem trimChars_map_cUp (l : List Char) :
    trimChars (l.map cUp) = (trimChars l).map cUp := by
  unfold trimChars
  rw [dropWhile_isWs_map_cUp, ← List.map_reverse, dropWhile_isWs_map_cUp,
    ← List.map_reverse]

theorem takeDigits_map_cUp (l : List Char) :
    takeDigits (l.map cUp) = ((takeDigits l).1, (takeDigits l).2.map cUp) := by
  induction l with
  | nil => rfl
  | cons c t ih =>
    rw [List.map_cons]
    unfold takeDigits
    rw [isDig_cUp]
    cases h : isDig c with
    | true =>
      rw [cUp_of_isDig h]
      simp only [if_true, ih]
    | false => simp

theorem expDigits_map_cUp (l : List Char) : expDigits (l.map cUp) = expDigits l := by
  by_cases hd : l.all isDig = true
  · rw [map_cUp_of_all_isDig hd]
  · unfold expDigits
    rw [if_neg (fun hcontra => hd (by rw [← all_isDig_map_cUp]; exact hcontra.2)),
      if_neg (fun hcontra => hd hcontra.2)]

/-- A radix-or-exponent marker condition `c = lo ∨ c = up` (lowercase and
uppercase variants of the same letter) is invariant under `cUp`. -/
theorem cUp_letter_cond (xup xlo : Char) (hup : 65 ≤ xup.toNat ∧ xup.toNat ≤ 90)
    (hdist : xlo.toNat = xup.toNat + 32) (c : Char) :
    (cUp c = xlo ∨ cUp c = xup) = (c = xlo ∨ c = xup) := by
  apply propext
  constructor
  · rintro (h | h)
    · exact absurd h (cUp_ne_lower (by omega) c)
    · rw [cUp_eq_upper_iff xup xlo hup hdist c] at h
      exact h
  · intro h
    right
    rw [cUp_eq_upper_iff xup xlo hup hdist c]
    exact h

theorem expAfterE_cons (d : Char) (t : List Char) :
    expAfterE (d :: t) =
      (if d = '+' then expDigits t
      else if d = '-' then (expDigits t).map (fun e => -e)
      else expDigits (d :: t)) := rfl

theorem expAfterE_map_cUp (r : List Char) : expAfterE (r.map cUp) = expAfterE r := by
  cases r with
  | nil => rfl
  | cons d t =>
    rw [List.map_cons, expAfterE_cons, expAfterE_cons]
    have hplus : (cUp d = '+') = (d = '+') :=
      cUp_eq_iff_of_not_upper (by decide) d
    have hminus : (cUp d = '-') = (d = '-') :=
      cUp_eq_iff_of_not_upper (by decide) d
    simp only [hplus, hminus]
    by_cases hdp : d = '+'
    · rw [if_pos hdp, if_pos hdp, expDigits_map_cUp]
    · rw [if_neg hdp, if_neg hdp]
      by_cases hdm : d = '-'
      · rw [if_pos hdm, if_pos hdm, expDigits_map_cUp]
      · rw [if_neg hdm, if_neg hdm,
          show cUp d :: t.map cUp = (d :: t).map cUp from rfl,
          expDigits_map_cUp]

theorem parseExp_cons (c : Char) (r : List Char) :
    parseExp (c :: r) = (if c = 'e' ∨ c = 'E' then expAfterE r else none) := rfl

theorem parseExp_map_cUp (l : List Char) : parseExp (l.map cUp) = parseExp l := by
  cases l with
  | nil => rfl
  | cons c r =>
    rw [List.map_cons, parseExp_cons, parseExp_cons]
    simp only [cUp_letter_cond 'E' 'e' (by decide) (by decide) c]
    by_cases he : c = 'e' ∨ c = 'E'
    · rw [if_pos he, if_pos he, expAfterE_map_cUp]
    · rw [if_neg he, if_neg he]

theorem takeDigits_map_cUp_fst (l : List Char) :
    (takeDigits (l.map cUp)).1 = (takeDigits l).1 := by
  rw [takeDigits_map_cUp]

theorem takeDigits_map_cUp_snd (l : List Char) :
    (takeDigits (l.map cUp)).2 = (takeDigits l).2.map cUp := by
  rw [takeDigits_map_cUp]

theorem parseDecAfter_cons (ip : List Char) (c : Char) (r2 : List Char) :
    parseDecAfter ip (c :: r2) =
      (if c = '.' then
        if ip = [] ∧ (takeDigits r2).1 = [] then none
        else
          (parseExp (takeDigits r2).2).map
            (fun e => (digitsToNat (ip ++ (takeDigits r2).1),
              e - (((takeDigits r2).1.length : Int))))
      else if ip = [] then none
      else (parseExp (c :: r2)).map (fun e => (digitsToNat ip, e))) := rfl

theorem parseDecAfter_map_cUp (ip r : List Char) :
    parseDecAfter ip (r.map cUp) = parseDecAfter ip r := by
  cases r with
  | nil => rfl
  | cons c r2 =>
    rw [List.map_cons, parseDecAfter_cons, parseDecAfter_cons]
    simp only [cUp_eq_iff_of_not_upper (by decide : ('.' : Char).toNat < 65 ∨
      (90 < ('.' : Char).toNat ∧ ('.' : Char).toNat < 97) ∨ 122 < ('.' : Char).toNat) c]
    by_cases hc : c = '.'
    · rw [if_pos hc, if_pos hc, takeDigits_map_cUp_fst, takeDigits_map_cUp_snd,
        parseExp_map_cUp]
    · rw [if_neg hc, if_neg hc,
        show cUp c :: r2.map cUp = (c :: r2).map cUp from rfl, parseExp_map_cUp]

theorem parseDec_map_cUp (l : List Char) : parseDec (l.map cUp) = parseDec l := by
  unfold parseDec
  rw [takeDigits_map_cUp_fst, takeDigits_map_cUp_snd, parseDecAfter_map_cUp]

theorem map_cUp_ne_infinity (l : List Char) : l.map cUp ≠ "Infinity".toList := by
  intro h
  have h1 : (l.map cUp)[1]? = some 'n' := by rw [h]; rfl
  rw [List.getElem?_map] at h1
  cases hg : l[1]? with
  | none => rw [hg] at h1; cases h1
  | some c =>
    rw [hg] at h1
    have h2 : cUp c = 'n' := by simpa using h1
    exact cUp_ne_lower (by decide) c h2

theorem jsBody_map_cUp_intValue (neg : Bool) (l : List Char) :
    (jsBody neg (l.map cUp)).intValue = (jsBody neg l).intValue := by
  by_cases hInf : l = "Infinity".toList
  · subst hInf
    cases neg <;> decide
  · unfold jsBody
    rw [if_neg (map_cUp_ne_infinity l), if_neg hInf, parseDec_map_cUp]

theorem zeroRadix_map_cUp_intValue (r : List Char) :
    (zeroRadix (r.map cUp)).intValue = (zeroRadix r).intValue := by
  cases r with
  | nil => rfl
  | cons x t =>
    rw [List.map_cons, zeroRadix_cons, zeroRadix_cons]
    simp only [cUp_letter_cond 'X' 'x' (by decide) (by decide) x,
      cUp_letter_cond 'O' 'o' (by decide) (by decide) x,
      cUp_letter_cond 'B' 'b' (by decide) (by decide) x]
    by_cases hx : x = 'x' ∨ x = 'X'
    · rw [if_pos hx, if_pos hx]
      by_cases ht : t ≠ [] ∧ t.all isHexDig = true
      · rw [if_pos ⟨by simpa using ht.1, by rw [all_isHexDig_map_cUp]; exact ht.2⟩,
          if_pos ht, hexToNat_map_cUp]
      · rw [if_neg (fun hcontra => ht ⟨by simpa using hcontra.1,
            by rw [← all_isHexDig_map_cUp]; exact hcontra.2⟩), if_neg ht]
    · rw [if_neg hx, if_neg hx]
      by_cases ho : x = 'o' ∨ x = 'O'
      · rw [if_pos ho, if_pos ho]
        by_cases ht : t ≠ [] ∧ t.all isOct = true
        · have hdig : t.all isDig = true := by
            rw [List.all_eq_true] at ht ⊢
            intro c hc
            have := ht.2 c hc
            unfold isOct at this
            unfold isDig
            simp only [decide_eq_true_eq] at this ⊢
            omega
          rw [if_pos ⟨by simpa using ht.1, by rw [all_isOct_map_cUp]; exact ht.2⟩,
            if_pos ht, map_cUp_of_all_isDig hdig]
        · rw [if_neg (fun hcontra => ht ⟨by simpa using hcontra.1,
              by rw [← all_isOct_map_cUp]; exact hcontra.2⟩), if_neg ht]
      · rw [if_neg ho, if_neg ho]
        by_cases hb : x = 'b' ∨ x = 'B'
        · rw [if_pos hb, if_pos hb]
          by_cases ht : t ≠ [] ∧ t.all isBin = true
          · have hdig : t.all isDig = true := by
              rw [List.all_eq_true] at ht ⊢
              intro c hc
              have := ht.2 c hc
              unfold isBin at this
              unfold isDig
              simp only [decide_eq_true_eq] at this ⊢
              omega
            rw [if_pos ⟨by simpa using ht.1, by rw [all_isBin_map_cUp]; exact ht.2⟩,
              if_pos ht, map_cUp_of_all_isDig hdig]
          · rw [if_neg (fun hcontra => ht ⟨by simpa using hcontra.1,
                by rw [← all_isBin_map_cUp]; exact hcontra.2⟩), if_neg ht]
        · rw [if_neg hb, if_neg hb,
            show ('0' : Char) :: cUp x :: t.map cUp = ('0' :: x :: t).map cUp from
              by rw [List.map_cons, List.map_cons]; rfl,
            jsBody_map_cUp_intValue]

theorem jsParseCore_map_cUp_intValue (l : List Char) :
    (jsParseCore (l.map cUp)).intValue = (jsParseCore l).intValue := by
  cases l with
  | nil => rfl
  | cons c r =>
    rw [List.map_cons, jsParseCore_cons, jsParseCore_cons]
    have hplus : (cUp c = '+') = (c = '+') := cUp_eq_iff_of_not_upper (by decide) c
    have hminus : (cUp c = '-') = (c = '-') := cUp_eq_iff_of_not_upper (by decide) c
    have hzero : (cUp c = '0') = (c = '0') := cUp_eq_iff_of_not_upper (by decide) c
    simp only [hplus, hminus, hzero]
    by_cases hp : c = '+'
    · rw [if_pos hp, if_pos hp]
      exact jsBody_map_cUp_intValue false r
    · rw [if_neg hp, if_neg hp]
      by_cases hm : c = '-'
      · rw [if_pos hm, if_pos hm]
        exact jsBody_map_cUp_intValue true r
      · rw [if_neg hm, if_neg hm]
        by_cases h0 : c = '0'
        · rw [if_pos h0, if_pos h0]
          exact zeroRadix_map_cUp_intValue r
        · rw [if_neg h0, if_neg h0,
            show cUp c :: r.map cUp = (c :: r).map cUp from rfl]
          exact jsBody_map_cUp_intValue false (c :: r)

/-- The integer value seen by the `{no: term}` query is invariant under
uppercasing the term. -/
theorem jsStringToNumber_jsUpper_intValue (s : String) :
    (jsStringToNumber (jsUpper s)).intValue = (jsStringToNumber s).intValue := by
  unfold jsStringToNumber
  rw [show (jsUpper s).data = s.data.map cUp from rfl, trimChars_map_cUp,
    jsParseCore_map_cUp_intValue]

theorem intValue_none_of_isNaN {x : JsNum} (h : x.isNaN = true) :
    x.intValue = none := by
  cases x with
  | nan => rfl
  | posInf => simp [JsNum.isNaN] at h
  | negInf => simp [JsNum.isNaN] at h
  | finite m sc => simp [JsNum.isNaN] at h

theorem list_find?_congr {α : Type} {p q : α → Bool} (l : List α)
    (h : ∀ a, p a = q a) : l.find? p = l.find? q := by
  induction l with
  | nil => rfl
  | cons c t ih =>
    by_cases hc : p c = true
    · rw [List.find?_cons_of_pos _ hc, List.find?_cons_of_pos _ (by rw [← h c]; exact hc)]
    · rw [List.find?_cons_of_neg _ (by simpa using hc),
        List.find?_cons_of_neg _ (by rw [← h c]; simpa using hc), ih]

theorem string_data_inj {a b : String} (h : a.data = b.data) : a = b :=
  congrArg String.mk h

theorem map_cLow_map_cUp (l : List Char) : (l.map cUp).map cLow = l.map cLow := by
  induction l with
  | nil => rfl
  | cons c t ih => rw [List.map_cons, List.map_cons, List.map_cons, cLow_cUp, ih]

theorem noMatches_jsUpper (s : String) (r : Pokemon) :
    noMatches (jsUpper s) r = noMatches s r := by
  unfold noMatches
  rw [jsStringToNumber_jsUpper_intValue]

/-- Step 1 of the resolver is invariant under uppercasing the term: the
`!isNaN` guard can differ (only on `Infinity` forms), but then no record
can match either way. -/
theorem numericLookup_jsUpper (db : List Pokemon) (s : String) :
    numericLookup db (jsUpper s) = numericLookup db s := by
  have hval := jsStringToNumber_jsUpper_intValue s
  unfold numericLookup numericStrategyApplies
  cases h1 : (jsStringToNumber (jsUpper s)).isNaN with
  | true =>
    cases h2 : (jsStringToNumber s).isNaN with
    | true => rfl
    | false =>
      have hn : (jsStringToNumber s).intValue = none := by
        rw [← hval]
        exact intValue_none_of_isNaN h1
      rw [if_neg (by decide), if_pos (by decide)]
      symm
      rw [List.find?_eq_none]
      intro x hx
      unfold noMatches
      rw [hn]
      simp
  | false =>
    cases h2 : (jsStringToNumber s).isNaN with
    | true =>
      have hn : (jsStringToNumber (jsUpper s)).intValue = none := by
        rw [hval]
        exact intValue_none_of_isNaN h2
      rw [if_pos (by decide), if_neg (by decide)]
      rw [List.find?_eq_none]
      intro x hx
      unfold noMatches
      rw [hn]
      simp
    | false =>
      rw [if_pos (by decide), if_pos (by decide)]
      exact list_find?_congr db (noMatches_jsUpper s)

theorem isValidObjectId_jsUpper (s : String) :
    isValidObjectId (jsUpper s) = isValidObjectId s := by
  unfold isValidObjectId
  rw [show (jsUpper s).data = s.data.map cUp from rfl, List.length_map,
    all_isHexDig_map_cUp]

/-- Step 2 of the resolver is invariant under uppercasing the term
(ObjectId hex parsing is case-insensitive). -/
theorem idLookup_jsUpper (db : List Pokemon) (s : String) :
    idLookup db (jsUpper s) = idLookup db s := by
  unfold idLookup
  rw [isValidObjectId_jsUpper]
  by_cases h : isValidObjectId s = true
  · rw [if_pos h, if_pos h]
    apply list_find?_congr
    intro r
    rw [show (jsUpper s).data = s.data.map cUp from rfl, map_cLow_map_cUp]
  · rw [if_neg h, if_neg h]

theorem nameKey_jsUpper (s : String) : nameKey (jsUpper s) = nameKey s := by
  unfold nameKey
  rw [show (jsUpper s).data = s.data.map cUp from rfl, map_cLow_map_cUp]

/-- Step 3 of the resolver is invariant under uppercasing the term
(the name key lowercases first). -/
theorem nameLookup_jsUpper (db : List Pokemon) (s : String) :
    nameLookup db (jsUpper s) = nameLookup db s := by
  unfold nameLookup
  apply list_find?_congr
  intro r
  rw [nameKey_jsUpper]

theorem findOneSteps_jsUpper (db : List Pokemon) (s : String) :
    findOneSteps db (jsUpper s) = findOneSteps db s := by
  unfold findOneSteps
  rw [numericLookup_jsUpper, idLookup_jsUpper, nameLookup_jsUpper]

/-- Claim C7: name lookups round-trip through case normalization.
Creating `"Pikachu"` into a conflict-free collection stores `"pikachu"`
and `findOne("pikachu")` returns the created record; and whenever
`findOne` resolves a term to a record, it resolves the uppercased term to
the same record. -/
theorem c7_case_normalization_roundtrip :
    (∀ (db : List Pokemon) (newId : String) (no : Int),
      (∀ r ∈ db, r.no ≠ no ∧ r.name ≠ "pikachu") →
      ∃ p : Pokemon,
        create db newId ⟨no, "Pikachu"⟩ = (db ++ [p], .ok p) ∧
        findOne (db ++ [p]) "pikachu" = .ok p) ∧
    (∀ (db : List Pokemon) (s : String) (r : Pokemon),
      findOne db s = .ok r → findOne db (jsUpper s) = .ok r) := by
  constructor
  · intro db newId no h
    refine ⟨⟨newId, no, jsLower "Pikachu"⟩, ?_, ?_⟩
    · unfold create
      have hany1 : db.any (fun r => r.no == no) = false := by
        rw [List.any_eq_false]
        intro r hr
        simp only [beq_iff_eq]
        exact (h r hr).1
      have hany2 : db.any (fun r => r.name == jsLower "Pikachu") = false := by
        rw [List.any_eq_false]
        intro r hr
        simp only [beq_iff_eq]
        rw [show jsLower "Pikachu" = "pikachu" from by decide]
        exact (h r hr).2
      simp only [hany1, hany2]
      rfl
    · unfold findOne findOneSteps
      have hnum : numericLookup (db ++ [⟨newId, no, jsLower "Pikachu"⟩]) "pikachu" = none := by
        unfold numericLookup
        rw [if_neg (by decide)]
      have hid : idLookup (db ++ [⟨newId, no, jsLower "Pikachu"⟩]) "pikachu" = none := by
        unfold idLookup
        rw [if_neg (by decide)]
      have hname : nameLookup (db ++ [⟨newId, no, jsLower "Pikachu"⟩]) "pikachu" =
          some ⟨newId, no, jsLower "Pikachu"⟩ := by
        unfold nameLookup
        rw [list_find?_append_of_none ?side]
        case side =>
          rw [List.find?_eq_none]
          intro x hx
          simp only [beq_iff_eq]
          intro hEq
          apply (h x hx).2
          apply string_data_inj
          rw [hEq]
          decide
        exact List.find?_cons_of_pos _
          (by show ((jsLower "Pikachu").data == nameKey "pikachu") = true; decide)
      rw [hnum, hid, hname]
  · intro db s r hok
    unfold findOne at hok ⊢
    rw [findOneSteps_jsUpper]
    cases hsteps : findOneSteps db s with
    | none =>
      rw [hsteps] at hok
      simp at hok
    | some p =>
      rw [hsteps] at hok
      exact hok

/-- Witness for C7: creating `Pikachu` into an empty collection and
resolving `"pikachu"`; and resolving `"PIKACHU"` (the uppercase of
`"pikachu"`) against a stored `"pikachu"` record. -/
theorem c7_witness :
    (∃ p : Pokemon,
      create [] "507f1f77bcf86cd799439011" ⟨25, "Pikachu"⟩ = ([] ++ [p], .ok p) ∧
      findOne ([] ++ [p]) "pikachu" = .ok p) ∧
    findOne [⟨"507f191e810c19729de860ea", 25, "pikachu"⟩] (jsUpper "pikachu") =
      .ok ⟨"507f191e810c19729de860ea", 25, "pikachu"⟩ :=
  ⟨c7_case_normalization_roundtrip.1 [] "507f1f77bcf86cd799439011" 25
      (fun r hr => absurd hr (List.not_mem_nil r)),
    c7_case_normalization_roundtrip.2 _ "pikachu" _ (by decide)⟩

/-- Claim C10: on the successful-fetch path the two reseed
implementations are equivalent — same operation trace (clear, fetch, one
unordered insert of the same transformed batch), same final collection,
same returned message — whatever the store does. -/
theorem c10_adapter_equivalence (results : List SourceEntry) (sf : Option RawError) :
    excuteSeedWithAdapter ⟨.ok results, sf⟩ = excuteSeed ⟨.ok results, sf⟩ := by
  simp only [excuteSeedWithAdapter, excuteSeed, seedBatchAdapter_eq_seedBatch]

end Pokedex

